import Mathlib

/-!
# Verification of the AVR0/1 XMODEM-CRC bootloader (`src/bootloader.c`)

Shallow embedding of the bootloader's update engine: the CRC-16/XMODEM
step function `crc16`, the XMODEM block codec `xmodem`, the flash
programming / verify loop of `programApp`, the entry decision
`entryCheck`, and the completion marker `eeAppOK`.

Machine integers are modelled as `Nat` with explicit `% 2^16`
truncation where the C code stores into a `uint16_t`; bytes read from
the UART are `Nat` values (in actual executions `< 256`).  The byte
stream consumed by the blocking `uread` is modelled as a `List Nat`
that each reader consumes from the front; running out of input models
the C code blocking forever and yields `none`.  Emitted bytes
(`uwrite`), page-buffer commits (`nvmWrite`) and the EEPROM completion
write are recorded in an event trace.
-/

set_option maxRecDepth 8192

namespace Bootloader

/-! ## Constants (from `src/bootloader.c` and the ATtiny3217 device headers) -/

/-- XMODEM NACK character (`X_NACK`). -/
def X_NACK : Nat := 0x15
/-- XMODEM ACK character (`X_ACK`). -/
def X_ACK : Nat := 0x06
/-- XMODEM start-of-header marker (`X_SOH`). -/
def X_SOH : Nat := 0x01
/-- XMODEM end-of-transmission marker (`X_EOT`). -/
def X_EOT : Nat := 0x04
/-- XMODEM-CRC ping character `'C'` (`X_PING`). -/
def X_PING : Nat := 0x43
/-- Payload size of one XMODEM block (`X_DATA_SIZE`). -/
def X_DATA_SIZE : Nat := 128

/-- Bootloader region size in bytes (`BL_SIZE`, user define). -/
def BL_SIZE : Nat := 2048
/-- Data-space address at which flash is mapped
    (`MAPPED_PROGMEM_START`, ATtiny3217 device header). -/
def MAPPED_PROGMEM_START : Nat := 0x8000
/-- Flash page size in bytes (`MAPPED_PROGMEM_PAGE_SIZE`; 128 on the
    ATtiny3217, 64 on the smaller AVR0/1 parts the source comment
    mentions). -/
def MAPPED_PROGMEM_PAGE_SIZE : Nat := 128

/-- `appMemStart = (volatile uint8_t*)(MAPPED_PROGMEM_START|BL_SIZE)`:
    mapped data-space address of the first flash byte past the
    bootloader region, where the flash cursor starts. -/
def appMemStart : Nat := MAPPED_PROGMEM_START ||| BL_SIZE

/-! ## CRC-16/XMODEM (function `crc16`, lines 280-290) -/

/-- One iteration of the inner loop of `crc16`:
    `b15 = crc & 0x8000; crc <<= 1; if (b15) crc ^= 0x1021;`
    with the `uint16_t` store truncating to 16 bits. -/
def crc16step (crc : Nat) : Nat :=
  let b15 := crc.testBit 15
  let c := (crc <<< 1) % 65536
  if b15 then c ^^^ 0x1021 else c

/-- `static uint16_t crc16(uint16_t crc, uint8_t v)`:
    `crc = crc ^ (v << 8);` followed by 8 iterations of the shift
    loop. -/
def crc16 (crc v : Nat) : Nat :=
  crc16step^[8] ((crc ^^^ (v <<< 8)) % 65536)

/-- Running CRC over a byte sequence, seeded with `crc` (how `xmodem`
    accumulates the CRC over the 128 payload bytes). -/
def crcRun (crc : Nat) (l : List Nat) : Nat :=
  l.foldl crc16 crc

/-! ## Reference CRC-16/XMODEM (bit-at-a-time polynomial division)

Modelled from the spec: the classic CRC-16/XMODEM polynomial-division
reference, consuming each byte most-significant bit first with
polynomial `0x1021`, against which `crc16` is compared. -/

/-- Reference: process one input bit (MSB-first polynomial division
    with polynomial `0x1021` over a 16-bit register). -/
def crcBit (crc : Nat) (b : Bool) : Nat :=
  let t := xor (crc.testBit 15) b
  let c := (crc <<< 1) % 65536
  if t then c ^^^ 0x1021 else c

/-- The low `n` bits of `v`, most significant first. -/
def bitsMSB : Nat → Nat → List Bool
  | 0, _ => []
  | n + 1, v => v.testBit n :: bitsMSB n v

/-- Reference: process one byte, MSB first. -/
def crcRefByte (crc v : Nat) : Nat :=
  (bitsMSB 8 v).foldl crcBit crc

/-- Reference: running CRC over a byte sequence. -/
def crcRef (crc : Nat) (l : List Nat) : Nat :=
  l.foldl crcRefByte crc

/-! ## Event traces -/

/-- Observable side effects of the update engine: a byte written to
    the UART (`uwrite`), a page-buffer commit (`nvmWrite`) recording
    how many buffered bytes it flushed, and the EEPROM completion-flag
    write performed by `eeAppOK`. -/
inductive Ev where
  | tx : Nat → Ev
  | pageCommit : Nat → Ev
  | flagWrite : Ev
  deriving DecidableEq, Repr

/-! ## XMODEM block codec (function `xmodem`, lines 292-312) -/

/-- Outcome of one iteration of the `while(1)` loop in `xmodem`:
    EOT seen (`return false`), a non-SOH byte discarded (`continue`),
    a full frame read but validation failed (NACK emitted, loop
    repeats), or a validated frame (`break`, then `return true`). -/
inductive Frame1 where
  | eot : Frame1
  | skip : Frame1
  | bad : Frame1
  | good : List Nat → Frame1
  deriving DecidableEq, Repr

/-- One iteration of the `xmodem` receive loop, consuming bytes from
    the front of the input stream.  After SOH, the two block-number
    bytes are summed into a `uint8_t` (`blockSum`, hence `% 256`), the
    128 payload bytes are stored and CRC-accumulated, and the two
    trailer bytes are combined big-endian (`(uread()<<8u) + uread()`,
    high byte read first).  `none` means the stream ran dry, i.e. the
    blocking `uread` never returns. -/
def xmodemStep : List Nat → Option (Frame1 × List Nat)
  | [] => none
  | c :: rest =>
    if c = X_EOT then some (Frame1.eot, rest)
    else if c = X_SOH then
      match rest with
      | b1 :: b2 :: rest2 =>
        match rest2.drop 128 with
        | hi :: lo :: rest4 =>
          if crcRun 0 (rest2.take 128) = hi <<< 8 + lo ∧ (b1 + b2) % 256 = 255 then
            some (Frame1.good (rest2.take 128), rest4)
          else
            some (Frame1.bad, rest4)
        | _ => none
      | _ => none
    else some (Frame1.skip, rest)

/-- The receive loop of `xmodem`, with an explicit fuel argument so
    the recursion is structural.  Each loop iteration consumes at
    least one input byte, so `inp.length` fuel is always enough (see
    `xmodemFuel_congr`); running out of fuel coincides with running
    out of input, i.e. with `uread` blocking forever.  The result is
    `(returnValue, xmodemData, remaining input, emitted events)`:
    `false` means EOT was seen, `true` means a validated 128-byte
    payload is in `xmodemData`. -/
def xmodemFuel (fuel : Nat) (inp : List Nat) :
    Option (Bool × List Nat × List Nat × List Ev) :=
  match fuel with
  | 0 => none
  | n + 1 =>
    match xmodemStep inp with
    | none => none
    | some (Frame1.eot, rest) => some (false, [], rest, [])
    | some (Frame1.good p, rest) => some (true, p, rest, [])
    | some (Frame1.skip, rest) => xmodemFuel n rest
    | some (Frame1.bad, rest) =>
      (xmodemFuel n rest).map fun o => (o.1, o.2.1, o.2.2.1, Ev.tx X_NACK :: o.2.2.2)

/-- `static bool xmodem()` (lines 292-312). -/
def xmodem (inp : List Nat) : Option (Bool × List Nat × List Nat × List Ev) :=
  xmodemFuel inp.length inp

/-! ## Flash programming engine (function `programApp`, lines 314-341)

Flash is modelled through its mapped data-space addresses: `mem` is
the committed nonvolatile content, `buf` the hardware page buffer
(the pending byte writes `flashPtr[i] = xmodemData[i]`, in order).
`nvmWrite` commits the buffered bytes.  A commit stores `fault a v`
instead of the intended byte `v`, where the `fault` parameter models
the hardware write (the identity function `fun _ v => v` is a
fault-free device); the subsequent read-back verification reads the
committed `mem`. -/

/-- Committed flash content together with the hardware page buffer. -/
structure FlashState where
  mem : Nat → Nat
  buf : List (Nat × Nat)

/-- Apply a list of buffered byte writes to the committed memory, in
    order, each one stored through the hardware write model `fault`. -/
def flushMem (fault : Nat → Nat → Nat) : (Nat → Nat) → List (Nat × Nat) → (Nat → Nat)
  | m, [] => m
  | m, (a, v) :: rest => flushMem fault (Function.update m a (fault a v)) rest

/-- `flashPtr[i] = xmodemData[i]`: append one byte write to the page
    buffer. -/
def bufWrite (a v : Nat) (st : FlashState) : FlashState :=
  { st with buf := st.buf ++ [(a, v)] }

/-- `nvmWrite()` (ERWP command): commit the page buffer to
    nonvolatile memory and clear it.  The emitted event records how
    many buffered bytes the commit flushed. -/
def nvmWrite (fault : Nat → Nat → Nat) (st : FlashState) : FlashState × Ev :=
  ({ mem := flushMem fault st.mem st.buf, buf := [] }, Ev.pageCommit st.buf.length)

/-- The byte-copy loop of `programApp` (lines 321-330):
    `while( i < X_DATA_SIZE ){ flashPtr[i] = xmodemData[i]; i++;
    if( ++pbc < MAPPED_PROGMEM_PAGE_SIZE ) continue; nvmWrite(); pbc = 0; }`
    written with the remaining iteration count `n = X_DATA_SIZE - i`
    explicit so the recursion is structural.  `ps` is the device page
    size `MAPPED_PROGMEM_PAGE_SIZE`. -/
def writeLoop (ps : Nat) (fault : Nat → Nat → Nat) (ptr : Nat) (data : List Nat) :
    Nat → Nat → Nat → FlashState → FlashState × List Ev
  | 0, _, _, st => (st, [])
  | n + 1, i, pbc, st =>
    let st1 := bufWrite (ptr + i) (data.getD i 0) st
    if pbc + 1 < ps then
      writeLoop ps fault ptr data n (i + 1) (pbc + 1) st1
    else
      let c := nvmWrite fault st1
      let r := writeLoop ps fault ptr data n (i + 1) 0 c.1
      (r.1, c.2 :: r.2)

/-- Write one accepted 128-byte payload at the cursor (the copy loop
    started with `i = 0`, `pbc = 0`). -/
def writeBlock (ps : Nat) (fault : Nat → Nat → Nat) (ptr : Nat) (data : List Nat)
    (st : FlashState) : FlashState × List Ev :=
  writeLoop ps fault ptr data X_DATA_SIZE 0 0 st

/-- The verify loop of `programApp` (line 332):
    `i = 0; while( (flashPtr[i] == xmodemData[i]) && (++i < X_DATA_SIZE) ){}`
    again with the remaining iteration count explicit.  Returns the
    final value of `i`: it equals `X_DATA_SIZE` exactly when all 128
    read-back bytes matched. -/
def verifyLoop (mem : Nat → Nat) (ptr : Nat) (data : List Nat) :
    Nat → Nat → Nat
  | 0, i => i
  | n + 1, i => if mem (ptr + i) = data.getD i 0 then verifyLoop mem ptr data n (i + 1) else i

/-- Verification of one block: final `i` of the verify loop. -/
def verifyBlock (mem : Nat → Nat) (ptr : Nat) (data : List Nat) : Nat :=
  verifyLoop mem ptr data X_DATA_SIZE 0

/-- The 128 bytes of committed flash starting at `ptr` (what the
    verify loop reads back). -/
def readBack (mem : Nat → Nat) (ptr : Nat) : List Nat :=
  (List.range X_DATA_SIZE).map fun i => mem (ptr + i)

/-- Specification helper: the byte writes `(address, value)` the copy
    loop issues for data indices `i, i+1, ..., i+n-1`. -/
def pendingWrites (ptr : Nat) (data : List Nat) : Nat → Nat → List (Nat × Nat)
  | 0, _ => []
  | n + 1, i => (ptr + i, data.getD i 0) :: pendingWrites ptr data n (i + 1)

/-! ## Session state machine (`programApp` receive loop and `main`) -/

/-- The `while( xmodem() )` receive loop of `programApp`
    (lines 320-340), fuel-indexed like `xmodemFuel` (each `xmodem`
    call consumes at least one input byte, so `inp.length` fuel is
    enough).  Result: `(final cursor, flash state, remaining input,
    event trace)`.  Per received block: write through the page
    buffer, verify by read-back, then ACK and advance the cursor by
    128, or NACK and leave the cursor alone; on EOT: ACK and return. -/
def sessionFuel (ps : Nat) (fault : Nat → Nat → Nat) :
    Nat → List Nat → Nat → FlashState → Option (Nat × FlashState × List Nat × List Ev)
  | 0, _, _, _ => none
  | n + 1, inp, cursor, st =>
    match xmodem inp with
    | none => none
    | some (false, _, rest, evs) => some (cursor, st, rest, evs ++ [Ev.tx X_ACK])
    | some (true, p, rest, evs) =>
      let w := writeBlock ps fault cursor p st
      if verifyBlock w.1.mem cursor p = X_DATA_SIZE then
        (sessionFuel ps fault n rest (cursor + X_DATA_SIZE) w.1).map fun o =>
          (o.1, o.2.1, o.2.2.1, evs ++ w.2 ++ Ev.tx X_ACK :: o.2.2.2)
      else
        (sessionFuel ps fault n rest cursor w.1).map fun o =>
          (o.1, o.2.1, o.2.2.1, evs ++ w.2 ++ Ev.tx X_NACK :: o.2.2.2)

/-- The receive loop of `programApp`, run from a given cursor and
    flash state. -/
def sessionLoop (ps : Nat) (fault : Nat → Nat → Nat) (inp : List Nat) (cursor : Nat)
    (st : FlashState) : Option (Nat × FlashState × List Nat × List Ev) :=
  sessionFuel ps fault inp.length inp cursor st

/-- `static void programApp()` (lines 314-341), after the handshake:
    the receive loop started at `appMemStart`
    (`volatile uint8_t* flashPtr = appMemStart`).  The preceding
    `Xbroadcast()` handshake only emits ping bytes and touches no
    persistent state; its timing-dependent loop is not modelled. -/
def programApp (ps : Nat) (fault : Nat → Nat → Nat) (inp : List Nat) (st : FlashState) :
    Option (Nat × FlashState × List Nat × List Ev) :=
  sessionLoop ps fault inp appMemStart st

/-- `static void eeAppOK()` (lines 343-349): write `0` to the last
    EEPROM byte and commit it (the busy poll then blocks until the
    hardware finishes; it has no observable effect in this model).
    Input: previous flag value; output: new flag value and trace. -/
def eeAppOK (_ee : Nat) : Nat × List Ev :=
  (0, [Ev.flagWrite])

/-- The update path of `main` (lines 360-363) once `entryCheck`
    selected the bootloader: `programApp()` then `eeAppOK()`.  The
    diagnostic dumps that follow only emit bytes and are outside the
    update engine.  Result: `(final cursor, flash state, final flag
    value, event trace)`. -/
def mainRun (ps : Nat) (fault : Nat → Nat → Nat) (inp : List Nat) (st : FlashState)
    (ee0 : Nat) : Option (Nat × FlashState × Nat × List Ev) :=
  (programApp ps fault inp st).map fun o =>
    (o.1, o.2.1, (eeAppOK ee0).1, o.2.2.2 ++ (eeAppOK ee0).2)

/-! ## Entry decision (function `entryCheck`, lines 217-218) -/

/-- `static bool entryCheck() { return *eeLastBytePtr == 0xFF ||
    swIsOn() || *appMemStart == 0xFF; }` — `eeLast` is the Persistent
    Validity Flag byte, `swOn` the debounced switch reading, and
    `appFirst` the first byte of the application flash region. -/
def entryCheck (eeLast : Nat) (swOn : Bool) (appFirst : Nat) : Bool :=
  (eeLast == 0xFF) || swOn || (appFirst == 0xFF)

/-- What boot does with the entry decision. -/
inductive BootAction where
  | runBootloader : BootAction
  | jumpToApp : BootAction
  deriving DecidableEq, Repr

/-- Line 358: `if( entryCheck() == false ) goto *appStartAddr;` —
    stay in the bootloader exactly when `entryCheck` returns true. -/
def mainDecision (eeLast : Nat) (swOn : Bool) (appFirst : Nat) : BootAction :=
  if entryCheck eeLast swOn appFirst then BootAction.runBootloader else BootAction.jumpToApp

/-! ## Frame construction (for concrete protocol runs) -/

/-- A well-formed XMODEM-CRC frame for block number `n` (complement
    byte `255 - n`) carrying payload `p`, CRC trailer big-endian. -/
def mkFrame (n : Nat) (p : List Nat) : List Nat :=
  X_SOH :: n :: (255 - n) :: (p ++ [crcRun 0 p / 256, crcRun 0 p % 256])

/-- A malformed frame: the block-number pair `(0, 0)` fails the
    complement check (the all-zero payload's CRC trailer is correct,
    so this frame is rejected by the pairing check alone). -/
def badFrame : List Nat :=
  X_SOH :: 0 :: 0 :: (List.replicate 128 0 ++ [0, 0])

/-! ## Codec termination and unfolding lemmas -/

theorem xmodemStep_length {inp rest : List Nat} {r : Frame1}
    (h : xmodemStep inp = some (r, rest)) : rest.length < inp.length := by
  match inp with
  | [] => simp [xmodemStep] at h
  | c :: tl =>
    simp only [xmodemStep] at h
    split at h
    · simp only [Option.some.injEq, Prod.mk.injEq] at h
      obtain ⟨-, h2⟩ := h
      subst h2
      simp
    · split at h
      · match tl with
        | [] => simp at h
        | [b1] => simp at h
        | b1 :: b2 :: rest2 =>
          dsimp only at h
          rcases h128 : rest2.drop 128 with - | ⟨hi, - | ⟨lo, rest4⟩⟩
          · rw [h128] at h; simp at h
          · rw [h128] at h; simp at h
          · rw [h128] at h
            dsimp only at h
            have hlen : rest4.length + 2 ≤ rest2.length := by
              have h1 := congrArg List.length h128
              simp [List.length_drop] at h1
              omega
            split at h
            · simp only [Option.some.injEq, Prod.mk.injEq] at h
              obtain ⟨-, h2⟩ := h
              subst h2
              simp only [List.length_cons]
              omega
            · simp only [Option.some.injEq, Prod.mk.injEq] at h
              obtain ⟨-, h2⟩ := h
              subst h2
              simp only [List.length_cons]
              omega
      · simp only [Option.some.injEq, Prod.mk.injEq] at h
        obtain ⟨-, h2⟩ := h
        subst h2
        simp

theorem xmodemFuel_congr :
    ∀ (n m : Nat) (inp : List Nat), inp.length ≤ n → inp.length ≤ m →
      xmodemFuel n inp = xmodemFuel m inp := by
  intro n
  induction n with
  | zero =>
    intro m inp hn _
    have : inp = [] := List.eq_nil_of_length_eq_zero (Nat.le_zero.mp hn)
    subst this
    cases m <;> simp [xmodemFuel, xmodemStep]
  | succ n ih =>
    intro m inp hn hm
    match m with
    | 0 =>
      have : inp = [] := List.eq_nil_of_length_eq_zero (Nat.le_zero.mp hm)
      subst this
      simp [xmodemFuel, xmodemStep]
    | m + 1 =>
      simp only [xmodemFuel]
      match h : xmodemStep inp with
      | none => rfl
      | some (Frame1.eot, rest) => rfl
      | some (Frame1.good p, rest) => rfl
      | some (Frame1.skip, rest) =>
        have hl := xmodemStep_length h
        exact ih m rest (by omega) (by omega)
      | some (Frame1.bad, rest) =>
        have hl := xmodemStep_length h
        exact congrArg (Option.map _) (ih m rest (by omega) (by omega))

/-- One-step unfolding of `xmodem`: the receive loop reads one frame
    attempt and either returns, or loops on the rest of the stream. -/
theorem xmodem_eq (inp : List Nat) :
    xmodem inp =
      match xmodemStep inp with
      | none => none
      | some (Frame1.eot, rest) => some (false, [], rest, [])
      | some (Frame1.good p, rest) => some (true, p, rest, [])
      | some (Frame1.skip, rest) => xmodem rest
      | some (Frame1.bad, rest) =>
        (xmodem rest).map fun o => (o.1, o.2.1, o.2.2.1, Ev.tx X_NACK :: o.2.2.2) := by
  unfold xmodem
  match hl : inp.length with
  | 0 =>
    have : inp = [] := List.eq_nil_of_length_eq_zero hl
    subst this
    simp [xmodemFuel, xmodemStep]
  | n + 1 =>
    simp only [xmodemFuel]
    match h : xmodemStep inp with
    | none => rfl
    | some (Frame1.eot, rest) => rfl
    | some (Frame1.good p, rest) => rfl
    | some (Frame1.skip, rest) =>
      have h2 := xmodemStep_length h
      exact xmodemFuel_congr n rest.length rest (by omega) le_rfl
    | some (Frame1.bad, rest) =>
      have h2 := xmodemStep_length h
      exact congrArg (Option.map _) (xmodemFuel_congr n rest.length rest (by omega) le_rfl)

theorem xmodemFuel_length :
    ∀ (n : Nat) (inp : List Nat) (b : Bool) (p rest : List Nat) (evs : List Ev),
      xmodemFuel n inp = some (b, p, rest, evs) → rest.length < inp.length := by
  intro n
  induction n with
  | zero => intro inp b p rest evs h; simp [xmodemFuel] at h
  | succ n ih =>
    intro inp b p rest evs h
    simp only [xmodemFuel] at h
    match hs : xmodemStep inp with
    | none => rw [hs] at h; simp at h
    | some (Frame1.eot, rest2) =>
      rw [hs] at h
      dsimp only at h
      simp only [Option.some.injEq, Prod.mk.injEq] at h
      obtain ⟨-, -, h3, -⟩ := h
      subst h3
      exact xmodemStep_length hs
    | some (Frame1.good q, rest2) =>
      rw [hs] at h
      dsimp only at h
      simp only [Option.some.injEq, Prod.mk.injEq] at h
      obtain ⟨-, -, h3, -⟩ := h
      subst h3
      exact xmodemStep_length hs
    | some (Frame1.skip, rest2) =>
      rw [hs] at h
      dsimp only at h
      exact lt_trans (ih rest2 b p rest evs h) (xmodemStep_length hs)
    | some (Frame1.bad, rest2) =>
      rw [hs] at h
      dsimp only at h
      match hx : xmodemFuel n rest2 with
      | none => rw [hx] at h; simp at h
      | some (b2, p2, rest3, evs2) =>
        rw [hx] at h
        simp only [Option.map_some', Option.some.injEq, Prod.mk.injEq] at h
        obtain ⟨-, -, h3, -⟩ := h
        subst h3
        exact lt_trans (ih rest2 b2 p2 rest3 evs2 hx) (xmodemStep_length hs)

theorem xmodem_length {inp : List Nat} {b : Bool} {p rest : List Nat} {evs : List Ev}
    (h : xmodem inp = some (b, p, rest, evs)) : rest.length < inp.length :=
  xmodemFuel_length inp.length inp b p rest evs h

/-! ## CRC lemmas -/

theorem crc16step_lt (s : Nat) : crc16step s < 65536 := by
  unfold crc16step
  have h1 : (s <<< 1) % 65536 < 65536 := Nat.mod_lt _ (by norm_num)
  dsimp only
  split
  · have h2 : (s <<< 1) % 65536 < 2 ^ 16 := by simpa using h1
    have h3 : (0x1021 : Nat) < 2 ^ 16 := by norm_num
    have h4 : (s <<< 1) % 65536 ^^^ 0x1021 < 2 ^ 16 := Nat.xor_lt_two_pow h2 h3
    simpa using h4
  · exact h1

theorem crcBit_lt (s : Nat) (b : Bool) : crcBit s b < 65536 := by
  unfold crcBit
  have h1 : (s <<< 1) % 65536 < 65536 := Nat.mod_lt _ (by norm_num)
  dsimp only
  split
  · have h2 : (s <<< 1) % 65536 < 2 ^ 16 := by simpa using h1
    have h3 : (0x1021 : Nat) < 2 ^ 16 := by norm_num
    have h4 : (s <<< 1) % 65536 ^^^ 0x1021 < 2 ^ 16 := Nat.xor_lt_two_pow h2 h3
    simpa using h4
  · exact h1

theorem crc16_lt (c v : Nat) : crc16 c v < 65536 := by
  unfold crc16
  rw [show (8 : Nat) = 7 + 1 from rfl, Function.iterate_succ_apply']
  exact crc16step_lt _

theorem xor_shiftLeft_distrib (a b n : Nat) :
    (a ^^^ b) <<< n = (a <<< n) ^^^ (b <<< n) := by
  apply Nat.eq_of_testBit_eq
  intro i
  simp only [Nat.testBit_shiftLeft, Nat.testBit_xor]
  cases Nat.decLe n i with
  | isTrue h => simp [h]
  | isFalse h => simp [h]

theorem xor_mod_two_pow (a b n : Nat) :
    (a ^^^ b) % 2 ^ n = a % 2 ^ n ^^^ b % 2 ^ n := by
  apply Nat.eq_of_testBit_eq
  intro i
  simp only [Nat.testBit_mod_two_pow, Nat.testBit_xor]
  cases Nat.decLt i n with
  | isTrue h => simp [h]
  | isFalse h => simp [h]

theorem shiftLeft_mod_two_pow (w m n : Nat) (h : m ≤ n) :
    (w <<< m) % 2 ^ n = (w % 2 ^ (n - m)) <<< m := by
  apply Nat.eq_of_testBit_eq
  intro i
  simp only [Nat.testBit_mod_two_pow, Nat.testBit_shiftLeft]
  by_cases hmi : m ≤ i
  · by_cases hin : i < n
    · simp [hmi, hin]
      omega
    · simp [hmi, hin]
      omega
  · simp [hmi]

theorem bitsMSB_mod (j w : Nat) : bitsMSB j (w % 2 ^ j) = bitsMSB j w := by
  induction j generalizing w with
  | zero => rfl
  | succ j ih =>
    simp only [bitsMSB, List.cons.injEq]
    refine ⟨by simp [Nat.testBit_mod_two_pow], ?_⟩
    calc bitsMSB j (w % 2 ^ (j + 1))
        = bitsMSB j (w % 2 ^ (j + 1) % 2 ^ j) := (ih _).symm
      _ = bitsMSB j (w % 2 ^ j) := by
          rw [Nat.mod_mod_of_dvd _ (pow_dvd_pow 2 (by omega))]
      _ = bitsMSB j w := ih w

theorem crc16step_mix (s w j : Nat) (hj : j < 16) :
    crc16step (s ^^^ w <<< (15 - j)) =
      crcBit s (w.testBit j) ^^^ (w % 2 ^ j) <<< (16 - j) := by
  have hbit : (s ^^^ w <<< (15 - j)).testBit 15 = (s.testBit 15).xor (w.testBit j) := by
    have h15 : 15 - (15 - j) = j := by omega
    simp [Nat.testBit_xor, Nat.testBit_shiftLeft, h15]
  have h2 : (w <<< (15 - j)) <<< 1 = w <<< (16 - j) := by
    apply Nat.eq_of_testBit_eq
    intro i
    simp only [Nat.testBit_shiftLeft]
    by_cases hi : 16 - j ≤ i
    · have ha : 1 ≤ i := by omega
      have hb : 15 - j ≤ i - 1 := by omega
      have hc : i - 1 - (15 - j) = i - (16 - j) := by omega
      simp [ha, hb, hi, hc]
    · by_cases hd : 1 ≤ i
      · have he : ¬(15 - j ≤ i - 1) := by omega
        simp [hd, he, hi]
      · simp [hd, hi]
  have h65536 : (65536 : Nat) = 2 ^ 16 := by norm_num
  have hshift : ((s ^^^ w <<< (15 - j)) <<< 1) % 65536 =
      (s <<< 1) % 65536 ^^^ (w % 2 ^ j) <<< (16 - j) := by
    rw [xor_shiftLeft_distrib, h2, h65536, xor_mod_two_pow,
      shiftLeft_mod_two_pow w (16 - j) 16 (by omega)]
    have h3 : 16 - (16 - j) = j := by omega
    rw [h3]
  have xlc : ∀ a b c : Nat, a ^^^ (b ^^^ c) = b ^^^ (a ^^^ c) := fun a b c => by
    rw [← Nat.xor_assoc, Nat.xor_comm a b, Nat.xor_assoc]
  simp only [crc16step, crcBit]
  rw [hbit, hshift]
  cases hbs : s.testBit 15 <;> cases hbw : w.testBit j <;>
    simp [Nat.xor_assoc, Nat.xor_comm, xlc]

theorem iterate_mix :
    ∀ (j : Nat), j ≤ 16 → ∀ (s w : Nat), w < 2 ^ j →
      crc16step^[j] (s ^^^ w <<< (16 - j)) = (bitsMSB j w).foldl crcBit s := by
  intro j
  induction j with
  | zero =>
    intro _ s w hw
    interval_cases w
    simp [bitsMSB]
  | succ j ih =>
    intro hj s w hw
    have h1 : 16 - (j + 1) = 15 - j := by omega
    rw [Function.iterate_succ_apply, h1, crc16step_mix s w j (by omega)]
    rw [ih (by omega) (crcBit s (w.testBit j)) (w % 2 ^ j)
      (Nat.mod_lt _ (by positivity))]
    rw [bitsMSB_mod]
    simp [bitsMSB]

theorem crc16_eq_crcRefByte (c v : Nat) (hc : c < 65536) (hv : v < 256) :
    crc16 c v = crcRefByte c v := by
  unfold crc16 crcRefByte
  have h2 : c < 2 ^ 16 := by simpa using hc
  have h3 : v <<< 8 < 2 ^ 16 := by
    rw [Nat.shiftLeft_eq, show (2 : Nat) ^ 8 = 256 from by norm_num,
      show (2 : Nat) ^ 16 = 65536 from by norm_num]
    omega
  have h1 : c ^^^ v <<< 8 < 65536 := by
    simpa using Nat.xor_lt_two_pow h2 h3
  rw [Nat.mod_eq_of_lt h1]
  have h4 := iterate_mix 8 (by omega) c v (by simpa using hv)
  simpa using h4

theorem crcRun_eq_crcRef (l : List Nat) :
    ∀ c, c < 65536 → (∀ b ∈ l, b < 256) → crcRun c l = crcRef c l := by
  induction l with
  | nil => intro c _ _; rfl
  | cons x xs ih =>
    intro c hc hb
    simp only [crcRun, crcRef, List.foldl_cons]
    rw [show List.foldl crc16 (crc16 c x) xs = crcRun (crc16 c x) xs from rfl]
    rw [show List.foldl crcRefByte (crcRefByte c x) xs = crcRef (crcRefByte c x) xs from rfl]
    rw [← crc16_eq_crcRefByte c x hc (hb x (by simp))]
    exact ih (crc16 c x) (crc16_lt c x) fun b hbm => hb b (by simp [hbm])

/-! ## Frame validation lemmas -/

/-- Characterization of one receive-loop iteration on a complete SOH
    frame: the frame is accepted exactly when the CRC matches the
    big-endian trailer and the block-number pair sums (mod 256) to
    255; otherwise it yields a `bad` outcome (NACK). -/
theorem xmodemStep_frame (b1 b2 : Nat) (payload : List Nat) (hi lo : Nat)
    (rest : List Nat) (hlen : payload.length = 128) :
    xmodemStep (X_SOH :: b1 :: b2 :: (payload ++ hi :: lo :: rest)) =
      if crcRun 0 payload = hi <<< 8 + lo ∧ (b1 + b2) % 256 = 255 then
        some (Frame1.good payload, rest)
      else some (Frame1.bad, rest) := by
  have hdrop : (payload ++ hi :: lo :: rest).drop 128 = hi :: lo :: rest := by
    rw [← hlen]
    exact List.drop_left payload (hi :: lo :: rest)
  have htake : (payload ++ hi :: lo :: rest).take 128 = payload := by
    rw [← hlen]
    exact List.take_left payload (hi :: lo :: rest)
  simp only [xmodemStep]
  rw [if_neg (by decide : ¬(X_SOH = X_EOT)), if_pos trivial]
  rw [hdrop]
  dsimp only
  rw [htake]

/-! ## Claim theorems -/

/-- **C1**: a received SOH frame is accepted by the Block Transport
    Codec if and only if the block-number byte and its complement byte
    sum (as exact integers) to 255 AND the CRC-16/XMODEM of the 128
    payload bytes (seed 0) equals the 16-bit big-endian trailer
    `256 * hi + lo`; a mismatched complement pair is rejected
    regardless of the CRC, a correct pair with a wrong CRC is
    rejected, and both correct is accepted (a `bad` outcome makes the
    codec emit a NACK, a `good` outcome returns the payload). -/
theorem claim_C1_accept_iff (b1 b2 : Nat) (payload : List Nat) (hi lo : Nat)
    (rest : List Nat) (hlen : payload.length = 128) (hb1 : b1 < 256) (hb2 : b2 < 256) :
    xmodemStep (X_SOH :: b1 :: b2 :: (payload ++ hi :: lo :: rest)) =
      if b1 + b2 = 255 ∧ crcRun 0 payload = 256 * hi + lo then
        some (Frame1.good payload, rest)
      else some (Frame1.bad, rest) := by
  rw [xmodemStep_frame b1 b2 payload hi lo rest hlen]
  have h1 : hi <<< 8 + lo = 256 * hi + lo := by
    rw [Nat.shiftLeft_eq]
    ring_nf
  have hcond : (crcRun 0 payload = hi <<< 8 + lo ∧ (b1 + b2) % 256 = 255) ↔
      (b1 + b2 = 255 ∧ crcRun 0 payload = 256 * hi + lo) := by
    rw [h1]
    constructor
    · rintro ⟨ha, hb⟩
      exact ⟨by omega, ha⟩
    · rintro ⟨ha, hb⟩
      exact ⟨hb, by omega⟩
  exact if_congr hcond rfl rfl

/-- Witness for C1: a concrete frame with block number 0, complement
    255, all-zero payload (CRC 0) and matching trailer is accepted. -/
theorem claim_C1_accept_iff_witness :
    xmodemStep (X_SOH :: 0 :: 255 :: (List.replicate 128 0 ++ 0 :: 0 :: [])) =
      if 0 + 255 = 255 ∧ crcRun 0 (List.replicate 128 0) = 256 * 0 + 0 then
        some (Frame1.good (List.replicate 128 0), [])
      else some (Frame1.bad, []) :=
  claim_C1_accept_iff 0 255 (List.replicate 128 0) 0 0 []
    (by decide) (by decide) (by decide)

/-- **C4**: `crc16` is a pure function computing one byte step of the
    reference CRC-16/XMODEM (MSB-first polynomial division with
    polynomial `0x1021`): on every 16-bit state and byte it agrees
    with the bit-level reference, hence the running CRC with seed 0
    over any byte sequence equals the reference polynomial result;
    the empty input stays 0, the single byte `0x00` yields 0, and the
    standard check input `"123456789"` yields `0x31C3`. -/
theorem claim_C4_crc16_reference :
    (∀ c v, c < 65536 → v < 256 → crc16 c v = crcRefByte c v) ∧
    (∀ l, (∀ b ∈ l, b < 256) → crcRun 0 l = crcRef 0 l) ∧
    crcRun 0 [] = 0 ∧
    crcRun 0 [0x00] = 0 ∧
    crcRun 0 [0x31, 0x32, 0x33, 0x34, 0x35, 0x36, 0x37, 0x38, 0x39] = 0x31C3 := by
  refine ⟨fun c v hc hv => crc16_eq_crcRefByte c v hc hv,
    fun l hb => crcRun_eq_crcRef l 0 (by norm_num) hb, rfl, by decide, by decide⟩

/-- Witness for C4 at concrete inputs. -/
theorem claim_C4_crc16_reference_witness :
    crc16 0xABCD 0x57 = crcRefByte 0xABCD 0x57 ∧
    crcRun 0 [1, 2, 250] = crcRef 0 [1, 2, 250] :=
  ⟨claim_C4_crc16_reference.1 0xABCD 0x57 (by decide) (by decide),
   claim_C4_crc16_reference.2.1 [1, 2, 250] (by decide)⟩

/-- **C5**: the entry decision runs the bootloader if and only if at
    least one of the three conditions says "run": the Persistent
    Validity Flag byte reads `0xFF`, or the switch reads pressed, or
    the first application flash byte reads `0xFF`; otherwise control
    transfers to the application.  Quantifying over all byte values
    and both switch states covers the 8 combinations of the truth
    table. -/
theorem claim_C5_entry_decision (eeLast : Nat) (swOn : Bool) (appFirst : Nat) :
    (mainDecision eeLast swOn appFirst = BootAction.runBootloader ↔
      (eeLast = 0xFF ∨ swOn = true ∨ appFirst = 0xFF)) ∧
    (mainDecision eeLast swOn appFirst = BootAction.jumpToApp ↔
      ¬(eeLast = 0xFF ∨ swOn = true ∨ appFirst = 0xFF)) := by
  unfold mainDecision entryCheck
  constructor
  · constructor
    · intro h
      by_contra hc
      push_neg at hc
      obtain ⟨h1, h2, h3⟩ := hc
      simp [h1, h2, h3] at h
    · intro h
      have : ((eeLast == 0xFF) || swOn || (appFirst == 0xFF)) = true := by
        rcases h with h | h | h <;> simp [h]
      simp [this]
  · constructor
    · intro h
      intro hc
      have : ((eeLast == 0xFF) || swOn || (appFirst == 0xFF)) = true := by
        rcases hc with h1 | h1 | h1 <;> simp [h1]
      simp [this] at h
    · intro h
      push_neg at h
      obtain ⟨h1, h2, h3⟩ := h
      simp [h1, h2, h3]

/-! ## Flash write lemmas -/

theorem flushMem_append (f : Nat → Nat → Nat) :
    ∀ (l1 l2 : List (Nat × Nat)) (m : Nat → Nat),
      flushMem f m (l1 ++ l2) = flushMem f (flushMem f m l1) l2 := by
  intro l1
  induction l1 with
  | nil => intro l2 m; rfl
  | cons x xs ih =>
    intro l2 m
    match x with
    | (a, v) =>
      simp only [List.cons_append, flushMem]
      exact ih l2 _

/-- Master characterization of the copy loop: with the page buffer
    holding `pbc` bytes, `pbc < ps`, and a page size dividing the
    total byte count `pbc + n`, the loop flushes everything it
    buffers, ends with an empty page buffer, and performs exactly
    `(pbc + n) / ps` commits of exactly `ps` bytes each. -/
theorem writeLoop_spec (ps : Nat) (f : Nat → Nat → Nat) (ptr : Nat) (data : List Nat) :
    ∀ (n i pbc : Nat) (st : FlashState),
      st.buf.length = pbc → pbc < ps → ps ∣ (pbc + n) →
      writeLoop ps f ptr data n i pbc st =
        ({ mem := flushMem f st.mem (st.buf ++ pendingWrites ptr data n i), buf := [] },
          List.replicate ((pbc + n) / ps) (Ev.pageCommit ps)) := by
  intro n
  induction n with
  | zero =>
    intro i pbc st hlen hlt hdvd
    have hpbc : pbc = 0 := by
      rcases hdvd with ⟨k, hk⟩
      rcases k with - | k
      · omega
      · have : ps ≤ pbc := by
          calc ps ≤ ps * (k + 1) := Nat.le_mul_of_pos_right ps (by omega)
            _ = pbc + 0 := hk.symm
            _ = pbc := by omega
        omega
    subst hpbc
    have hbuf : st.buf = [] := List.eq_nil_of_length_eq_zero hlen
    cases st with
    | mk mem buf =>
      simp only at hbuf
      subst hbuf
      simp [writeLoop, pendingWrites, flushMem, Nat.zero_div]
  | succ n ih =>
    intro i pbc st hlen hlt hdvd
    simp only [writeLoop]
    have heq1 : pbc + 1 + n = pbc + (n + 1) := by omega
    have hpend : [(ptr + i, data.getD i 0)] ++ pendingWrites ptr data n (i + 1) =
        pendingWrites ptr data (n + 1) i := by
      simp [pendingWrites]
    by_cases hc : pbc + 1 < ps
    · rw [if_pos hc]
      rw [ih (i + 1) (pbc + 1) (bufWrite (ptr + i) (data.getD i 0) st)
        (by simp [bufWrite, hlen]) hc (by rw [heq1]; exact hdvd)]
      simp only [bufWrite]
      rw [List.append_assoc, hpend, heq1]
    · rw [if_neg hc]
      have hps : pbc + 1 = ps := by omega
      have hpos : 0 < ps := by omega
      have hdn : ps ∣ n := by
        have h1 : ps ∣ ps + n := by
          have h2 : pbc + (n + 1) = ps + n := by omega
          rwa [h2] at hdvd
        exact (Nat.dvd_add_right (dvd_refl ps)).mp h1
      rw [ih (i + 1) 0 (nvmWrite f (bufWrite (ptr + i) (data.getD i 0) st)).1
        (by simp [nvmWrite]) hpos (by simpa using hdn)]
      simp only [nvmWrite, bufWrite, List.nil_append]
      rw [← flushMem_append, List.append_assoc, hpend]
      have hlen2 : (st.buf ++ [(ptr + i, data.getD i 0)]).length = ps := by
        simp [hlen]
        omega
      rw [hlen2]
      have hdiv : (pbc + (n + 1)) / ps = n / ps + 1 := by
        have h2 : pbc + (n + 1) = n + ps := by omega
        rw [h2, Nat.add_div_right n hpos]
      rw [hdiv]
      simp [List.replicate_succ]

/-- `writeBlock` with an initially empty page buffer and a device
    page size dividing 128: everything is committed, the buffer ends
    empty, and there are exactly `128 / ps` full-page commits. -/
theorem writeBlock_spec (ps : Nat) (f : Nat → Nat → Nat) (ptr : Nat) (data : List Nat)
    (st : FlashState) (hbuf : st.buf = []) (hpos : 0 < ps) (hdvd : ps ∣ 128) :
    writeBlock ps f ptr data st =
      ({ mem := flushMem f st.mem (pendingWrites ptr data 128 0), buf := [] },
        List.replicate (128 / ps) (Ev.pageCommit ps)) := by
  unfold writeBlock
  rw [writeLoop_spec ps f ptr data X_DATA_SIZE 0 0 st (by simp [hbuf]) hpos
    (by simpa [X_DATA_SIZE] using hdvd)]
  rw [hbuf]
  simp [X_DATA_SIZE]

/-- Pointwise effect of flushing the pending writes of one block:
    every address in the written window holds the (possibly faulted)
    data byte, and every other address is untouched. -/
theorem flushMem_pendingWrites (f : Nat → Nat → Nat) (ptr : Nat) (data : List Nat) :
    ∀ (n i : Nat) (m : Nat → Nat),
      (∀ k, k < n → flushMem f m (pendingWrites ptr data n i) (ptr + (i + k)) =
        f (ptr + (i + k)) (data.getD (i + k) 0)) ∧
      (∀ x, (∀ k, k < n → x ≠ ptr + (i + k)) →
        flushMem f m (pendingWrites ptr data n i) x = m x) := by
  intro n
  induction n with
  | zero =>
    intro i m
    exact ⟨fun k hk => absurd hk (by omega), fun x _ => rfl⟩
  | succ n ih =>
    intro i m
    simp only [pendingWrites, flushMem]
    constructor
    · intro k hk
      match k with
      | 0 =>
        rw [(ih (i + 1) _).2 (ptr + (i + 0)) (fun k hk => by omega)]
        simp [Function.update]
      | k + 1 =>
        have h1 := (ih (i + 1) (Function.update m (ptr + i) (f (ptr + i) (data.getD i 0)))).1 k (by omega)
        have h2 : i + 1 + k = i + (k + 1) := by omega
        rwa [h2] at h1
    · intro x hx
      have h1 := (ih (i + 1) (Function.update m (ptr + i) (f (ptr + i) (data.getD i 0)))).2 x
        (fun k hk => by
          have := hx (k + 1) (by omega)
          omega)
      rw [h1]
      have hne : x ≠ ptr + i := by
        have := hx 0 (by omega)
        omega
      simp [Function.update, hne]

/-! ## Read-back and verification lemmas -/

theorem map_getD_range (l : List Nat) :
    (List.range l.length).map (fun k => l.getD k 0) = l := by
  apply List.ext_get
  · simp
  · intro i h1 h2
    simp [List.getD_eq_getElem?_getD, List.getElem?_eq_getElem, List.get_eq_getElem, h2]

theorem readBack_eq_iff (m : Nat → Nat) (ptr : Nat) (data : List Nat)
    (hlen : data.length = 128) :
    readBack m ptr = data ↔ ∀ k, k < 128 → m (ptr + k) = data.getD k 0 := by
  constructor
  · intro h k hk
    have h1 := congrArg (fun l => l.getD k 0) h
    simp only [readBack, X_DATA_SIZE] at h1
    rwa [show ((List.range 128).map fun i => m (ptr + i)).getD k 0 = m (ptr + k) by
      simp [List.getD_eq_getElem?_getD, List.getElem?_eq_getElem, hk]] at h1
  · intro h
    apply List.ext_get
    · simp [readBack, X_DATA_SIZE, hlen]
    · intro i h1 h2
      have hi : i < 128 := by
        simp [readBack, X_DATA_SIZE] at h1
        omega
      have h3 := h i hi
      simp only [readBack, X_DATA_SIZE, List.get_eq_getElem, List.getElem_map,
        List.getElem_range]
      rw [h3]
      simp [List.getD_eq_getElem?_getD, List.getElem?_eq_getElem, h2]

/-- Read-back of the block window after `writeBlock`: each of the 128
    addresses holds the stored (possibly faulted) byte. -/
theorem readBack_writeBlock (ps : Nat) (f : Nat → Nat → Nat) (ptr : Nat) (data : List Nat)
    (st : FlashState) (hbuf : st.buf = []) (hpos : 0 < ps) (hdvd : ps ∣ 128) :
    readBack (writeBlock ps f ptr data st).1.mem ptr =
      (List.range 128).map fun k => f (ptr + k) (data.getD k 0) := by
  rw [writeBlock_spec ps f ptr data st hbuf hpos hdvd]
  simp only [readBack, X_DATA_SIZE]
  apply List.map_congr_left
  intro k hk
  have hk128 : k < 128 := by simpa using hk
  have h1 := (flushMem_pendingWrites f ptr data 128 0 st.mem).1 k hk128
  simpa using h1

/-- A fault-free `writeBlock` stores the payload verbatim. -/
theorem readBack_writeBlock_noFault (ps : Nat) (ptr : Nat) (data : List Nat)
    (st : FlashState) (hbuf : st.buf = []) (hpos : 0 < ps) (hdvd : ps ∣ 128)
    (hlen : data.length = 128) :
    readBack (writeBlock ps (fun _ v => v) ptr data st).1.mem ptr = data := by
  rw [readBack_writeBlock ps (fun _ v => v) ptr data st hbuf hpos hdvd]
  have h1 := map_getD_range data
  rw [hlen] at h1
  exact h1

/-- `writeBlock` does not touch memory outside its 128-byte window. -/
theorem writeBlock_outside (ps : Nat) (f : Nat → Nat → Nat) (ptr : Nat) (data : List Nat)
    (st : FlashState) (hbuf : st.buf = []) (hpos : 0 < ps) (hdvd : ps ∣ 128)
    (x : Nat) (hx : ∀ k, k < 128 → x ≠ ptr + k) :
    (writeBlock ps f ptr data st).1.mem x = st.mem x := by
  rw [writeBlock_spec ps f ptr data st hbuf hpos hdvd]
  exact (flushMem_pendingWrites f ptr data 128 0 st.mem).2 x (by simpa using hx)

theorem verifyLoop_spec (m : Nat → Nat) (ptr : Nat) (data : List Nat) :
    ∀ (n i : Nat),
      verifyLoop m ptr data n i = n + i ↔
        ∀ k, k < n → m (ptr + (i + k)) = data.getD (i + k) 0 := by
  intro n
  induction n with
  | zero =>
    intro i
    constructor
    · intro _ k hk
      exact absurd hk (by omega)
    · intro _
      simp [verifyLoop]
  | succ n ih =>
    intro i
    simp only [verifyLoop]
    by_cases hm : m (ptr + i) = data.getD i 0
    · rw [if_pos hm]
      have he : n + 1 + i = n + (i + 1) := by omega
      rw [he, ih (i + 1)]
      constructor
      · intro h k hk
        match k with
        | 0 => simpa using hm
        | k + 1 =>
          have h1 := h k (by omega)
          have h2 : i + 1 + k = i + (k + 1) := by omega
          rwa [h2] at h1
      · intro h k hk
        have h1 := h (k + 1) (by omega)
        have h2 : i + (k + 1) = i + 1 + k := by omega
        rwa [h2] at h1
    · rw [if_neg hm]
      constructor
      · intro h
        omega
      · intro h
        exact absurd (by simpa using h 0 (by omega)) hm

/-- The verify loop of `programApp` accepts (returns 128) exactly
    when the 128 bytes read back from flash equal the payload. -/
theorem verifyBlock_eq_iff (m : Nat → Nat) (ptr : Nat) (data : List Nat)
    (hlen : data.length = 128) :
    verifyBlock m ptr data = 128 ↔ readBack m ptr = data := by
  unfold verifyBlock
  rw [show (128 : Nat) = X_DATA_SIZE + 0 from rfl]
  rw [verifyLoop_spec m ptr data X_DATA_SIZE 0, readBack_eq_iff m ptr data hlen]
  constructor
  · intro h k hk
    simpa using h k (by simpa [X_DATA_SIZE] using hk)
  · intro h k hk
    simpa using h k (by simpa [X_DATA_SIZE] using hk)

/-! ## Session lemmas -/

theorem xmodemFuel_evs_nack :
    ∀ (n : Nat) (inp : List Nat) (b : Bool) (p rest : List Nat) (evs : List Ev),
      xmodemFuel n inp = some (b, p, rest, evs) → ∀ e ∈ evs, e = Ev.tx X_NACK := by
  intro n
  induction n with
  | zero => intro inp b p rest evs h; simp [xmodemFuel] at h
  | succ n ih =>
    intro inp b p rest evs h
    simp only [xmodemFuel] at h
    match hs : xmodemStep inp with
    | none => rw [hs] at h; simp at h
    | some (Frame1.eot, rest2) =>
      rw [hs] at h
      dsimp only at h
      simp only [Option.some.injEq, Prod.mk.injEq] at h
      obtain ⟨-, -, -, h4⟩ := h
      subst h4
      simp
    | some (Frame1.good q, rest2) =>
      rw [hs] at h
      dsimp only at h
      simp only [Option.some.injEq, Prod.mk.injEq] at h
      obtain ⟨-, -, -, h4⟩ := h
      subst h4
      simp
    | some (Frame1.skip, rest2) =>
      rw [hs] at h
      dsimp only at h
      exact ih rest2 b p rest evs h
    | some (Frame1.bad, rest2) =>
      rw [hs] at h
      dsimp only at h
      match hx : xmodemFuel n rest2 with
      | none => rw [hx] at h; simp at h
      | some (b2, p2, rest3, evs2) =>
        rw [hx] at h
        simp only [Option.map_some', Option.some.injEq, Prod.mk.injEq] at h
        obtain ⟨-, -, -, h4⟩ := h
        subst h4
        intro e he
        rcases List.mem_cons.mp he with he1 | he1
        · exact he1
        · exact ih rest2 b2 p2 rest3 evs2 hx e he1

theorem writeLoop_evs_commit (ps : Nat) (f : Nat → Nat → Nat) (ptr : Nat) (data : List Nat) :
    ∀ (n i pbc : Nat) (st : FlashState),
      ∀ e ∈ (writeLoop ps f ptr data n i pbc st).2, ∃ k, e = Ev.pageCommit k := by
  intro n
  induction n with
  | zero => intro i pbc st e he; simp [writeLoop] at he
  | succ n ih =>
    intro i pbc st e he
    simp only [writeLoop] at he
    by_cases hc : pbc + 1 < ps
    · rw [if_pos hc] at he
      exact ih (i + 1) (pbc + 1) _ e he
    · rw [if_neg hc] at he
      simp only [List.mem_cons] at he
      rcases he with he | he
      · exact ⟨_, he⟩
      · exact ih (i + 1) 0 _ e he

theorem sessionFuel_congr (ps : Nat) (f : Nat → Nat → Nat) :
    ∀ (n m : Nat) (inp : List Nat) (cursor : Nat) (st : FlashState),
      inp.length ≤ n → inp.length ≤ m →
      sessionFuel ps f n inp cursor st = sessionFuel ps f m inp cursor st := by
  intro n
  induction n with
  | zero =>
    intro m inp cursor st hn _
    have he : inp = [] := List.eq_nil_of_length_eq_zero (Nat.le_zero.mp hn)
    subst he
    cases m <;> simp [sessionFuel, xmodem, xmodemFuel]
  | succ n ih =>
    intro m inp cursor st hn hm
    match m with
    | 0 =>
      have he : inp = [] := List.eq_nil_of_length_eq_zero (Nat.le_zero.mp hm)
      subst he
      simp [sessionFuel, xmodem, xmodemFuel]
    | m + 1 =>
      simp only [sessionFuel]
      match hx : xmodem inp with
      | none => rfl
      | some (false, p, rest, evs) => rfl
      | some (true, p, rest, evs) =>
        have hl := xmodem_length hx
        dsimp only
        split
        · exact congrArg (Option.map _) (ih m rest (cursor + X_DATA_SIZE) _ (by omega) (by omega))
        · exact congrArg (Option.map _) (ih m rest cursor _ (by omega) (by omega))

/-- One-step unfolding of the receive loop of `programApp`. -/
theorem sessionLoop_eq (ps : Nat) (f : Nat → Nat → Nat) (inp : List Nat) (cursor : Nat)
    (st : FlashState) :
    sessionLoop ps f inp cursor st =
      match xmodem inp with
      | none => none
      | some (false, _, rest, evs) => some (cursor, st, rest, evs ++ [Ev.tx X_ACK])
      | some (true, p, rest, evs) =>
        if verifyBlock (writeBlock ps f cursor p st).1.mem cursor p = X_DATA_SIZE then
          (sessionLoop ps f rest (cursor + X_DATA_SIZE) (writeBlock ps f cursor p st).1).map
            fun o => (o.1, o.2.1, o.2.2.1,
              evs ++ (writeBlock ps f cursor p st).2 ++ Ev.tx X_ACK :: o.2.2.2)
        else
          (sessionLoop ps f rest cursor (writeBlock ps f cursor p st).1).map
            fun o => (o.1, o.2.1, o.2.2.1,
              evs ++ (writeBlock ps f cursor p st).2 ++ Ev.tx X_NACK :: o.2.2.2) := by
  unfold sessionLoop
  match hl : inp.length with
  | 0 =>
    have he : inp = [] := List.eq_nil_of_length_eq_zero hl
    subst he
    simp [sessionFuel, xmodem, xmodemFuel]
  | n + 1 =>
    simp only [sessionFuel]
    match hx : xmodem inp with
    | none => rfl
    | some (false, p, rest, evs) => rfl
    | some (true, p, rest, evs) =>
      have h2 := xmodem_length hx
      dsimp only
      split
      · exact congrArg (Option.map _)
          (sessionFuel_congr ps f n rest.length rest (cursor + X_DATA_SIZE) _ (by omega) le_rfl)
      · exact congrArg (Option.map _)
          (sessionFuel_congr ps f n rest.length rest cursor _ (by omega) le_rfl)

/-- Main session invariant: a terminating receive loop never rewinds
    the cursor, advances it by exactly 128 bytes per emitted block
    ACK (the final ACK being the EOT acknowledgement), emits no
    completion-flag write, and ends its trace with the EOT ACK. -/
theorem sessionFuel_invariant (ps : Nat) (f : Nat → Nat → Nat) :
    ∀ (n : Nat) (inp : List Nat) (cursor : Nat) (st : FlashState)
      (c2 : Nat) (st2 : FlashState) (rest : List Nat) (evs : List Ev),
      sessionFuel ps f n inp cursor st = some (c2, st2, rest, evs) →
      cursor ≤ c2 ∧
      1 ≤ evs.count (Ev.tx X_ACK) ∧
      c2 = cursor + X_DATA_SIZE * (evs.count (Ev.tx X_ACK) - 1) ∧
      evs.count Ev.flagWrite = 0 ∧
      evs.getLast? = some (Ev.tx X_ACK) := by
  intro n
  induction n with
  | zero => intro inp cursor st c2 st2 rest evs h; simp [sessionFuel] at h
  | succ n ih =>
    intro inp cursor st c2 st2 rest evs h
    simp only [sessionFuel] at h
    match hx : xmodem inp with
    | none => rw [hx] at h; simp at h
    | some (false, p, rest1, evs1) =>
      rw [hx] at h
      dsimp only at h
      simp only [Option.some.injEq, Prod.mk.injEq] at h
      obtain ⟨h1, -, -, h4⟩ := h
      subst h1
      subst h4
      have hnk := xmodemFuel_evs_nack inp.length inp false p rest1 evs1 hx
      have hcnt : evs1.count (Ev.tx X_ACK) = 0 :=
        List.count_eq_zero.mpr fun hm => by
          have := hnk _ hm
          simp [X_ACK, X_NACK] at this
      have hcnt2 : evs1.count Ev.flagWrite = 0 :=
        List.count_eq_zero.mpr fun hm => by
          have := hnk _ hm
          simp at this
      refine ⟨le_rfl, ?_, ?_, ?_, ?_⟩
      · simp [List.count_append, hcnt]
      · simp [List.count_append, hcnt]
      · simp [List.count_append, hcnt2]
      · exact List.getLast?_concat evs1
    | some (true, p, rest1, evs1) =>
      rw [hx] at h
      dsimp only at h
      have hnk := xmodemFuel_evs_nack inp.length inp true p rest1 evs1 hx
      have hcnt : evs1.count (Ev.tx X_ACK) = 0 :=
        List.count_eq_zero.mpr fun hm => by
          have := hnk _ hm
          simp [X_ACK, X_NACK] at this
      have hcnt2 : evs1.count Ev.flagWrite = 0 :=
        List.count_eq_zero.mpr fun hm => by
          have := hnk _ hm
          simp at this
      have hw := writeLoop_evs_commit ps f cursor p X_DATA_SIZE 0 0 st
      have hwcnt : (writeBlock ps f cursor p st).2.count (Ev.tx X_ACK) = 0 :=
        List.count_eq_zero.mpr fun hm => by
          obtain ⟨k, hk⟩ := hw _ hm
          simp at hk
      have hwcnt2 : (writeBlock ps f cursor p st).2.count Ev.flagWrite = 0 :=
        List.count_eq_zero.mpr fun hm => by
          obtain ⟨k, hk⟩ := hw _ hm
          simp at hk
      split at h
      · match hrec : sessionFuel ps f n rest1 (cursor + X_DATA_SIZE) (writeBlock ps f cursor p st).1 with
        | none => rw [hrec] at h; simp at h
        | some (c3, st3, rest3, evs3) =>
          rw [hrec] at h
          obtain ⟨hle, hcnt3, hc3, hfw3, hlast3⟩ := ih rest1 (cursor + X_DATA_SIZE) _ c3 st3 rest3 evs3 hrec
          simp only [Option.map_some', Option.some.injEq, Prod.mk.injEq] at h
          obtain ⟨h1, -, -, h4⟩ := h
          subst h1
          subst h4
          have hne3 : evs3 ≠ [] := by
            intro he
            subst he
            simp at hlast3
          have hcc : (evs1 ++ (writeBlock ps f cursor p st).2 ++ Ev.tx X_ACK :: evs3).count
              (Ev.tx X_ACK) = evs3.count (Ev.tx X_ACK) + 1 := by
            rw [List.count_append, List.count_append, List.count_cons_self, hcnt, hwcnt]
            omega
          have hfc : (evs1 ++ (writeBlock ps f cursor p st).2 ++ Ev.tx X_ACK :: evs3).count
              Ev.flagWrite = 0 := by
            rw [List.count_append, List.count_append,
              List.count_cons_of_ne (by decide), hcnt2, hwcnt2, hfw3]
          simp only [X_DATA_SIZE] at hle hc3 ⊢
          refine ⟨by omega, ?_, ?_, ?_, ?_⟩
          · rw [hcc]
            omega
          · rw [hcc]
            omega
          · exact hfc
          · rw [List.getLast?_append, List.getLast?_append]
            cases h3 : evs3.getLast? with
            | none => exact absurd (List.getLast?_eq_none_iff.mp h3) hne3
            | some e =>
              rw [h3] at hlast3
              simp only [List.getLast?_cons, h3]
              simp [hlast3]
      · match hrec : sessionFuel ps f n rest1 cursor (writeBlock ps f cursor p st).1 with
        | none => rw [hrec] at h; simp at h
        | some (c3, st3, rest3, evs3) =>
          rw [hrec] at h
          obtain ⟨hle, hcnt3, hc3, hfw3, hlast3⟩ := ih rest1 cursor _ c3 st3 rest3 evs3 hrec
          simp only [Option.map_some', Option.some.injEq, Prod.mk.injEq] at h
          obtain ⟨h1, -, -, h4⟩ := h
          subst h1
          subst h4
          have hne3 : evs3 ≠ [] := by
            intro he
            subst he
            simp at hlast3
          have hcc : (evs1 ++ (writeBlock ps f cursor p st).2 ++ Ev.tx X_NACK :: evs3).count
              (Ev.tx X_ACK) = evs3.count (Ev.tx X_ACK) := by
            rw [List.count_append, List.count_append,
              List.count_cons_of_ne (by decide), hcnt, hwcnt]
            omega
          have hfc : (evs1 ++ (writeBlock ps f cursor p st).2 ++ Ev.tx X_NACK :: evs3).count
              Ev.flagWrite = 0 := by
            rw [List.count_append, List.count_append,
              List.count_cons_of_ne (by decide), hcnt2, hwcnt2, hfw3]
          simp only [X_DATA_SIZE] at hle hc3 ⊢
          refine ⟨by omega, ?_, ?_, ?_, ?_⟩
          · rw [hcc]
            omega
          · rw [hcc]
            omega
          · exact hfc
          · rw [List.getLast?_append, List.getLast?_append]
            cases h3 : evs3.getLast? with
            | none => exact absurd (List.getLast?_eq_none_iff.mp h3) hne3
            | some e =>
              rw [h3] at hlast3
              simp only [List.getLast?_cons, h3]
              simp [hlast3]

/-! ## Concrete protocol-run lemmas -/

theorem xmodem_eot (rest : List Nat) :
    xmodem (X_EOT :: rest) = some (false, [], rest, []) := by
  rw [xmodem_eq]
  have hs : xmodemStep (X_EOT :: rest) = some (Frame1.eot, rest) := by
    simp [xmodemStep]
  rw [hs]

theorem sessionLoop_eot (ps : Nat) (f : Nat → Nat → Nat) (rest : List Nat)
    (cursor : Nat) (st : FlashState) :
    sessionLoop ps f (X_EOT :: rest) cursor st = some (cursor, st, rest, [Ev.tx X_ACK]) := by
  rw [sessionLoop_eq, xmodem_eot rest]
  rfl

theorem xmodem_mkFrame (n : Nat) (p : List Nat) (rest : List Nat) (hn : n < 256)
    (hlen : p.length = 128) :
    xmodem (mkFrame n p ++ rest) = some (true, p, rest, []) := by
  have h1 : mkFrame n p ++ rest =
      X_SOH :: n :: (255 - n) :: (p ++ (crcRun 0 p / 256) :: (crcRun 0 p % 256) :: rest) := by
    simp [mkFrame]
  rw [xmodem_eq, h1,
    xmodemStep_frame n (255 - n) p (crcRun 0 p / 256) (crcRun 0 p % 256) rest hlen]
  rw [if_pos]
  constructor
  · rw [Nat.shiftLeft_eq, show (2 : Nat) ^ 8 = 256 from by norm_num]
    have hdm := Nat.div_add_mod (crcRun 0 p) 256
    omega
  · omega

theorem xmodemStep_badFrame (rest : List Nat) :
    xmodemStep (badFrame ++ rest) = some (Frame1.bad, rest) := by
  have h1 : badFrame ++ rest =
      X_SOH :: 0 :: 0 :: (List.replicate 128 0 ++ 0 :: 0 :: rest) := by
    simp [badFrame]
  rw [h1, xmodemStep_frame 0 0 (List.replicate 128 0) 0 0 rest (by simp)]
  rw [if_neg]
  intro hc
  omega

/-- The byte written by `writeBlock` at each offset of its window. -/
theorem writeBlock_inside (ps : Nat) (f : Nat → Nat → Nat) (ptr : Nat) (data : List Nat)
    (st : FlashState) (hbuf : st.buf = []) (hpos : 0 < ps) (hdvd : ps ∣ 128)
    (k : Nat) (hk : k < 128) :
    (writeBlock ps f ptr data st).1.mem (ptr + k) = f (ptr + k) (data.getD k 0) := by
  rw [writeBlock_spec ps f ptr data st hbuf hpos hdvd]
  have h1 := (flushMem_pendingWrites f ptr data 128 0 st.mem).1 k hk
  simpa using h1

/-! ## Claim theorems (continued) -/

/-- **C9**: whenever the byte read at the frame-start position is the
    end marker `0x04` (EOT), `xmodem` reports transfer complete
    (returns `false`) without producing a block or emitting anything,
    and the receive loop of `programApp` terminates, replying with a
    single ACK byte for the end-of-transmission. -/
theorem claim_C9_eot :
    (∀ (inp rest : List Nat), xmodemStep inp = some (Frame1.eot, rest) →
      xmodem inp = some (false, [], rest, [])) ∧
    (∀ (ps : Nat) (f : Nat → Nat → Nat) (rest : List Nat) (cursor : Nat) (st : FlashState),
      sessionLoop ps f (X_EOT :: rest) cursor st = some (cursor, st, rest, [Ev.tx X_ACK])) := by
  constructor
  · intro inp rest h
    rw [xmodem_eq, h]
  · exact sessionLoop_eot

/-- Witness for C9 at a concrete stream consisting of a single EOT. -/
theorem claim_C9_eot_witness :
    xmodem [X_EOT] = some (false, [], [], []) ∧
    sessionLoop 128 (fun _ v => v) [X_EOT] 0 ⟨fun _ => 0, []⟩ =
      some (0, ⟨fun _ => 0, []⟩, [], [Ev.tx X_ACK]) :=
  ⟨claim_C9_eot.1 [X_EOT] [] (by decide),
   claim_C9_eot.2 128 (fun _ v => v) [] 0 ⟨fun _ => 0, []⟩⟩

/-- **C7**: for an AVR0/1 device page size (64 or 128 bytes), the
    copy loop of `programApp` commits the page buffer each time it
    fills to the page size (every emitted commit event flushes
    exactly `ps` buffered bytes, and there are `128 / ps` of them per
    block), and after all 128 bytes are written nothing remains
    buffered: the page buffer is empty when verification begins. -/
theorem claim_C7_page_buffer (ps : Nat) (f : Nat → Nat → Nat) (ptr : Nat)
    (data : List Nat) (st : FlashState) (hps : ps = 64 ∨ ps = 128) (hbuf : st.buf = []) :
    (writeBlock ps f ptr data st).1.buf = [] ∧
    (writeBlock ps f ptr data st).2 = List.replicate (128 / ps) (Ev.pageCommit ps) := by
  have hpos : 0 < ps := by rcases hps with h | h <;> omega
  have hdvd : ps ∣ 128 := by
    rcases hps with h | h <;> subst h <;> decide
  rw [writeBlock_spec ps f ptr data st hbuf hpos hdvd]
  exact ⟨rfl, rfl⟩

/-- Witness for C7 with page size 64 and an all-0xFF device. -/
theorem claim_C7_page_buffer_witness :
    (writeBlock 64 (fun _ v => v) 0 [] ⟨fun _ => 255, []⟩).1.buf = [] ∧
    (writeBlock 64 (fun _ v => v) 0 [] ⟨fun _ => 255, []⟩).2 =
      List.replicate (128 / 64) (Ev.pageCommit 64) :=
  claim_C7_page_buffer 64 (fun _ v => v) 0 [] ⟨fun _ => 255, []⟩ (Or.inl rfl) rfl

/-- **C2**: for every accepted 128-byte payload, after writing, the
    engine re-reads the 128 bytes just written and compares them
    byte-for-byte against the payload: if all 128 match it emits ACK
    and the cursor advances by exactly 128; if even one byte differs
    (so the read-back is not the payload) it emits NACK and the
    cursor does not advance, so the next attempt overwrites the same
    region (the possibly-faulty hardware write is `f`). -/
theorem claim_C2_verify_gate (ps : Nat) (f : Nat → Nat → Nat) (n cursor : Nat)
    (p : List Nat) (st : FlashState) (hn : n < 256) (hlen : p.length = 128) :
    (readBack (writeBlock ps f cursor p st).1.mem cursor = p →
      sessionLoop ps f (mkFrame n p ++ [X_EOT]) cursor st =
        some (cursor + 128, (writeBlock ps f cursor p st).1, [],
          (writeBlock ps f cursor p st).2 ++ [Ev.tx X_ACK, Ev.tx X_ACK])) ∧
    (readBack (writeBlock ps f cursor p st).1.mem cursor ≠ p →
      sessionLoop ps f (mkFrame n p ++ [X_EOT]) cursor st =
        some (cursor, (writeBlock ps f cursor p st).1, [],
          (writeBlock ps f cursor p st).2 ++ [Ev.tx X_NACK, Ev.tx X_ACK])) := by
  have hx := xmodem_mkFrame n p [X_EOT] hn hlen
  have hverify : verifyBlock (writeBlock ps f cursor p st).1.mem cursor p = X_DATA_SIZE ↔
      readBack (writeBlock ps f cursor p st).1.mem cursor = p :=
    verifyBlock_eq_iff (writeBlock ps f cursor p st).1.mem cursor p hlen
  constructor
  · intro hrb
    rw [sessionLoop_eq, hx]
    dsimp only
    rw [if_pos (hverify.mpr hrb), sessionLoop_eot]
    simp [X_DATA_SIZE]
  · intro hrb
    rw [sessionLoop_eq, hx]
    dsimp only
    rw [if_neg (fun hc => hrb (hverify.mp hc)), sessionLoop_eot]
    simp [X_DATA_SIZE]

/-- Witness for C2: a fault-free device accepts and advances, a
    device stuck writing `9` fails verification, NACKs and does not
    advance. -/
theorem claim_C2_verify_gate_witness :
    sessionLoop 128 (fun _ v => v) (mkFrame 3 (List.replicate 128 7) ++ [X_EOT]) 0
        ⟨fun _ => 0, []⟩ =
      some (0 + 128, (writeBlock 128 (fun _ v => v) 0 (List.replicate 128 7) ⟨fun _ => 0, []⟩).1,
        [], (writeBlock 128 (fun _ v => v) 0 (List.replicate 128 7) ⟨fun _ => 0, []⟩).2 ++
          [Ev.tx X_ACK, Ev.tx X_ACK]) ∧
    sessionLoop 128 (fun _ _ => 9) (mkFrame 3 (List.replicate 128 7) ++ [X_EOT]) 0
        ⟨fun _ => 0, []⟩ =
      some (0, (writeBlock 128 (fun _ _ => 9) 0 (List.replicate 128 7) ⟨fun _ => 0, []⟩).1,
        [], (writeBlock 128 (fun _ _ => 9) 0 (List.replicate 128 7) ⟨fun _ => 0, []⟩).2 ++
          [Ev.tx X_NACK, Ev.tx X_ACK]) :=
  ⟨(claim_C2_verify_gate 128 (fun _ v => v) 3 0 (List.replicate 128 7) ⟨fun _ => 0, []⟩
      (by decide) (by decide)).1
    (readBack_writeBlock_noFault 128 0 (List.replicate 128 7) ⟨fun _ => 0, []⟩ rfl
      (by decide) (by decide) (by decide)),
   (claim_C2_verify_gate 128 (fun _ _ => 9) 3 0 (List.replicate 128 7) ⟨fun _ => 0, []⟩
      (by decide) (by decide)).2
    (by
      rw [readBack_writeBlock 128 (fun _ _ => 9) 0 (List.replicate 128 7) ⟨fun _ => 0, []⟩ rfl
        (by decide) (by decide)]
      decide)⟩

/-- **C8**: every frame-validation failure in the codec emits exactly
    one NACK byte and restarts the read from the top: the loop result
    is the result on the remaining stream with one NACK prepended, so
    no validation failure terminates the receive loop or reaches a
    fatal state; and there is no upper bound on retries: for every
    `k`, a stream of `k` malformed frames followed by a valid one
    still yields that block, after exactly `k` NACKs. -/
theorem claim_C8_nack_restart :
    (∀ (inp rest : List Nat), xmodemStep inp = some (Frame1.bad, rest) →
      xmodem inp = (xmodem rest).map fun o =>
        (o.1, o.2.1, o.2.2.1, Ev.tx X_NACK :: o.2.2.2)) ∧
    (∀ (k n : Nat) (p : List Nat), n < 256 → p.length = 128 →
      xmodem ((List.replicate k badFrame).flatten ++ mkFrame n p) =
        some (true, p, [], List.replicate k (Ev.tx X_NACK))) := by
  have hstep : ∀ (inp rest : List Nat), xmodemStep inp = some (Frame1.bad, rest) →
      xmodem inp = (xmodem rest).map fun o =>
        (o.1, o.2.1, o.2.2.1, Ev.tx X_NACK :: o.2.2.2) := by
    intro inp rest h
    rw [xmodem_eq, h]
  refine ⟨hstep, ?_⟩
  intro k
  induction k with
  | zero =>
    intro n p hn hlen
    have h0 := xmodem_mkFrame n p [] hn hlen
    simpa using h0
  | succ k ih =>
    intro n p hn hlen
    have hjoin : (List.replicate (k + 1) badFrame).flatten ++ mkFrame n p =
        badFrame ++ ((List.replicate k badFrame).flatten ++ mkFrame n p) := by
      simp [List.replicate_succ]
    rw [hjoin, hstep _ _ (xmodemStep_badFrame _), ih n p hn hlen]
    simp [List.replicate_succ]

/-- Witness for C8: one malformed frame then a valid one. -/
theorem claim_C8_nack_restart_witness :
    xmodem (badFrame ++ [X_EOT]) = (xmodem [X_EOT]).map (fun o =>
      (o.1, o.2.1, o.2.2.1, Ev.tx X_NACK :: o.2.2.2)) ∧
    xmodem ((List.replicate 1 badFrame).flatten ++ mkFrame 0 (List.replicate 128 0)) =
      some (true, List.replicate 128 0, [], List.replicate 1 (Ev.tx X_NACK)) :=
  ⟨claim_C8_nack_restart.1 (badFrame ++ [X_EOT]) [X_EOT] (xmodemStep_badFrame [X_EOT]),
   claim_C8_nack_restart.2 1 0 (List.replicate 128 0) (by decide) (by decide)⟩

/-- **C6**: the flash cursor starts at the first address past the
    bootloader region (`programApp` begins at `appMemStart`, which is
    the mapped flash base plus the bootloader size), never rewinds,
    and advances by exactly 128 bytes per accepted block — one ACK is
    emitted per accepted block plus one final EOT ACK, and the final
    cursor is the start plus 128 times the number of accepted blocks;
    in particular a rejected attempt (NACK) adds no advance, so a
    resent payload is rewritten at the same region; and with a
    fault-free device writing the same payload twice at one cursor
    leaves memory identical to writing it once. -/
theorem claim_C6_cursor :
    appMemStart = MAPPED_PROGMEM_START + BL_SIZE ∧
    (∀ (ps : Nat) (f : Nat → Nat → Nat) (inp : List Nat) (st : FlashState),
      programApp ps f inp st = sessionLoop ps f inp appMemStart st) ∧
    (∀ (ps : Nat) (f : Nat → Nat → Nat) (inp : List Nat) (cursor : Nat) (st : FlashState)
      (c2 : Nat) (st2 : FlashState) (rest : List Nat) (evs : List Ev),
      sessionLoop ps f inp cursor st = some (c2, st2, rest, evs) →
      cursor ≤ c2 ∧ 1 ≤ evs.count (Ev.tx X_ACK) ∧
        c2 = cursor + 128 * (evs.count (Ev.tx X_ACK) - 1)) ∧
    (∀ (ps ptr : Nat) (p : List Nat) (st : FlashState), 0 < ps → ps ∣ 128 → st.buf = [] →
      (writeBlock ps (fun _ v => v) ptr p
        (writeBlock ps (fun _ v => v) ptr p st).1).1.mem =
      (writeBlock ps (fun _ v => v) ptr p st).1.mem) := by
  refine ⟨by decide, fun ps f inp st => rfl, ?_, ?_⟩
  · intro ps f inp cursor st c2 st2 rest evs h
    have hinv := sessionFuel_invariant ps f inp.length inp cursor st c2 st2 rest evs h
    exact ⟨hinv.1, hinv.2.1, hinv.2.2.1⟩
  · intro ps ptr p st hpos hdvd hbuf
    have hbuf1 : (writeBlock ps (fun _ v => v) ptr p st).1.buf = [] := by
      rw [writeBlock_spec ps (fun _ v => v) ptr p st hbuf hpos hdvd]
    funext x
    by_cases hx : ∃ k, k < 128 ∧ x = ptr + k
    · obtain ⟨k, hk, he⟩ := hx
      subst he
      rw [writeBlock_inside ps (fun _ v => v) ptr p _ hbuf1 hpos hdvd k hk,
        writeBlock_inside ps (fun _ v => v) ptr p st hbuf hpos hdvd k hk]
    · push_neg at hx
      exact writeBlock_outside ps (fun _ v => v) ptr p _ hbuf1 hpos hdvd x
        fun k hk => hx k hk

/-- Witness for C6 at a one-EOT session and a double write. -/
theorem claim_C6_cursor_witness :
    (5 ≤ 5 ∧ 1 ≤ ([Ev.tx X_ACK].count (Ev.tx X_ACK)) ∧
      5 = 5 + 128 * ([Ev.tx X_ACK].count (Ev.tx X_ACK) - 1)) ∧
    (writeBlock 128 (fun _ v => v) 0 (List.replicate 128 7)
        (writeBlock 128 (fun _ v => v) 0 (List.replicate 128 7) ⟨fun _ => 0, []⟩).1).1.mem =
      (writeBlock 128 (fun _ v => v) 0 (List.replicate 128 7) ⟨fun _ => 0, []⟩).1.mem :=
  ⟨claim_C6_cursor.2.2.1 128 (fun _ v => v) [X_EOT] 5 ⟨fun _ => 0, []⟩ 5 ⟨fun _ => 0, []⟩
      [] [Ev.tx X_ACK] (sessionLoop_eot 128 (fun _ v => v) [] 5 ⟨fun _ => 0, []⟩),
    claim_C6_cursor.2.2.2 128 0 (List.replicate 128 7) ⟨fun _ => 0, []⟩
      (by decide) (by decide) rfl⟩

/-- **C3**: in every terminating run of the update path of `main`
    (receive session followed by `eeAppOK`), the Persistent Validity
    Flag is written exactly once (it ends 0, a non-`0xFF`
    "programmed" value), and that single write happens strictly after
    the whole session trace, whose last event is the ACK
    acknowledging the end-of-transmission; no flag write ever occurs
    mid-session. -/
theorem claim_C3_completion_marker (ps : Nat) (f : Nat → Nat → Nat) (inp : List Nat)
    (st : FlashState) (ee0 c2 : Nat) (st2 : FlashState) (ee2 : Nat) (tr : List Ev)
    (h : mainRun ps f inp st ee0 = some (c2, st2, ee2, tr)) :
    ee2 = 0 ∧ ee2 ≠ 0xFF ∧ tr.count Ev.flagWrite = 1 ∧
    ∃ pre, tr = pre ++ [Ev.flagWrite] ∧ pre.count Ev.flagWrite = 0 ∧
      pre.getLast? = some (Ev.tx X_ACK) := by
  unfold mainRun programApp at h
  match hp : sessionLoop ps f inp appMemStart st with
  | none => rw [hp] at h; simp at h
  | some (c3, st3, rest3, evs3) =>
    rw [hp] at h
    simp only [Option.map_some', Option.some.injEq, Prod.mk.injEq, eeAppOK] at h
    obtain ⟨-, -, h3, h4⟩ := h
    have hinv := sessionFuel_invariant ps f inp.length inp appMemStart st c3 st3 rest3 evs3 hp
    refine ⟨h3.symm, by omega, ?_, evs3, h4.symm, hinv.2.2.2.1, hinv.2.2.2.2⟩
    rw [← h4, List.count_append, hinv.2.2.2.1]
    simp

/-- Witness for C3: a session that is just an acknowledged EOT,
    followed by the single completion-flag write. -/
theorem claim_C3_completion_marker_witness :
    (0 : Nat) = 0 ∧ (0 : Nat) ≠ 0xFF ∧
    ([Ev.tx X_ACK, Ev.flagWrite].count Ev.flagWrite = 1) ∧
    ∃ pre, ([Ev.tx X_ACK, Ev.flagWrite] : List Ev) = pre ++ [Ev.flagWrite] ∧
      pre.count Ev.flagWrite = 0 ∧ pre.getLast? = some (Ev.tx X_ACK) :=
  claim_C3_completion_marker 128 (fun _ v => v) [X_EOT] ⟨fun _ => 0, []⟩ 255 appMemStart
    ⟨fun _ => 0, []⟩ 0 [Ev.tx X_ACK, Ev.flagWrite] rfl

theorem readBack_congr (m m2 : Nat → Nat) (ptr : Nat)
    (h : ∀ k, k < 128 → m (ptr + k) = m2 (ptr + k)) :
    readBack m ptr = readBack m2 ptr := by
  unfold readBack
  apply List.map_congr_left
  intro k hk
  exact h k (by simpa [X_DATA_SIZE] using hk)

/-- **C10**: the codec performs no sequence check on block numbers —
    acceptance depends only on complement pairing and CRC — and the
    engine writes every accepted payload at the current cursor: two
    valid frames with arbitrary (possibly equal or out-of-order)
    block numbers `n1`, `n2` are both accepted on a fault-free
    device, the first payload lands at the cursor, the second at
    cursor + 128, and the session ACKs both blocks and the EOT. -/
theorem claim_C10_no_sequence_check (ps n1 n2 cursor : Nat) (p1 p2 : List Nat)
    (st : FlashState) (hn1 : n1 < 256) (hn2 : n2 < 256)
    (hl1 : p1.length = 128) (hl2 : p2.length = 128)
    (hbuf : st.buf = []) (hpos : 0 < ps) (hdvd : ps ∣ 128) :
    ∃ st2 : FlashState,
      sessionLoop ps (fun _ v => v) (mkFrame n1 p1 ++ (mkFrame n2 p2 ++ [X_EOT])) cursor st =
        some (cursor + 256, st2, [],
          List.replicate (128 / ps) (Ev.pageCommit ps) ++ Ev.tx X_ACK ::
            (List.replicate (128 / ps) (Ev.pageCommit ps) ++ [Ev.tx X_ACK, Ev.tx X_ACK])) ∧
      readBack st2.mem cursor = p1 ∧ readBack st2.mem (cursor + 128) = p2 := by
  have hrb1 : readBack (writeBlock ps (fun _ v => v) cursor p1 st).1.mem cursor = p1 :=
    readBack_writeBlock_noFault ps cursor p1 st hbuf hpos hdvd hl1
  have hver1 : verifyBlock (writeBlock ps (fun _ v => v) cursor p1 st).1.mem cursor p1 =
      X_DATA_SIZE :=
    (show verifyBlock (writeBlock ps (fun _ v => v) cursor p1 st).1.mem cursor p1 =
        X_DATA_SIZE ↔ _ from verifyBlock_eq_iff _ _ _ hl1).mpr hrb1
  have hbuf1 : (writeBlock ps (fun _ v => v) cursor p1 st).1.buf = [] := by
    rw [writeBlock_spec ps (fun _ v => v) cursor p1 st hbuf hpos hdvd]
  have hrb2 : readBack (writeBlock ps (fun _ v => v) (cursor + X_DATA_SIZE) p2
      (writeBlock ps (fun _ v => v) cursor p1 st).1).1.mem (cursor + X_DATA_SIZE) = p2 :=
    readBack_writeBlock_noFault ps (cursor + X_DATA_SIZE) p2 _ hbuf1 hpos hdvd hl2
  have hver2 : verifyBlock (writeBlock ps (fun _ v => v) (cursor + X_DATA_SIZE) p2
      (writeBlock ps (fun _ v => v) cursor p1 st).1).1.mem (cursor + X_DATA_SIZE) p2 =
      X_DATA_SIZE :=
    (show verifyBlock (writeBlock ps (fun _ v => v) (cursor + X_DATA_SIZE) p2
        (writeBlock ps (fun _ v => v) cursor p1 st).1).1.mem (cursor + X_DATA_SIZE) p2 =
        X_DATA_SIZE ↔ _ from verifyBlock_eq_iff _ _ _ hl2).mpr hrb2
  have hbuf2 : (writeBlock ps (fun _ v => v) (cursor + X_DATA_SIZE) p2
      (writeBlock ps (fun _ v => v) cursor p1 st).1).1.buf = [] := by
    rw [writeBlock_spec ps (fun _ v => v) (cursor + X_DATA_SIZE) p2 _ hbuf1 hpos hdvd]
  have hw1ev : (writeBlock ps (fun _ v => v) cursor p1 st).2 =
      List.replicate (128 / ps) (Ev.pageCommit ps) := by
    rw [writeBlock_spec ps (fun _ v => v) cursor p1 st hbuf hpos hdvd]
  have hw2ev : (writeBlock ps (fun _ v => v) (cursor + X_DATA_SIZE) p2
      (writeBlock ps (fun _ v => v) cursor p1 st).1).2 =
      List.replicate (128 / ps) (Ev.pageCommit ps) := by
    rw [writeBlock_spec ps (fun _ v => v) (cursor + X_DATA_SIZE) p2 _ hbuf1 hpos hdvd]
  refine ⟨(writeBlock ps (fun _ v => v) (cursor + X_DATA_SIZE) p2
    (writeBlock ps (fun _ v => v) cursor p1 st).1).1, ?_, ?_, ?_⟩
  · rw [sessionLoop_eq, xmodem_mkFrame n1 p1 _ hn1 hl1]
    dsimp only
    rw [if_pos hver1]
    rw [sessionLoop_eq, xmodem_mkFrame n2 p2 [X_EOT] hn2 hl2]
    dsimp only
    rw [if_pos hver2]
    rw [sessionLoop_eot]
    simp only [X_DATA_SIZE] at hw2ev
    simp only [Option.map_some', List.nil_append, hw1ev, hw2ev, X_DATA_SIZE]
  · have hsame : ∀ k, k < 128 → (writeBlock ps (fun _ v => v) (cursor + X_DATA_SIZE) p2
        (writeBlock ps (fun _ v => v) cursor p1 st).1).1.mem (cursor + k) =
        (writeBlock ps (fun _ v => v) cursor p1 st).1.mem (cursor + k) := by
      intro k hk
      apply writeBlock_outside ps (fun _ v => v) (cursor + X_DATA_SIZE) p2 _ hbuf1 hpos hdvd
      intro j hj
      simp only [X_DATA_SIZE]
      omega
    exact (readBack_congr _ _ cursor hsame).trans hrb1
  · exact hrb2

/-- Witness for C10: the same block number twice — both frames are
    still accepted and written consecutively. -/
theorem claim_C10_no_sequence_check_witness :
    ∃ st2 : FlashState,
      sessionLoop 128 (fun _ v => v)
          (mkFrame 2 (List.replicate 128 1) ++ (mkFrame 2 (List.replicate 128 1) ++ [X_EOT])) 0
          ⟨fun _ => 0, []⟩ =
        some (0 + 256, st2, [],
          List.replicate (128 / 128) (Ev.pageCommit 128) ++ Ev.tx X_ACK ::
            (List.replicate (128 / 128) (Ev.pageCommit 128) ++ [Ev.tx X_ACK, Ev.tx X_ACK])) ∧
      readBack st2.mem 0 = List.replicate 128 1 ∧
      readBack st2.mem (0 + 128) = List.replicate 128 1 :=
  claim_C10_no_sequence_check 128 2 2 0 (List.replicate 128 1) (List.replicate 128 1)
    ⟨fun _ => 0, []⟩ (by decide) (by decide) (by decide) (by decide) rfl (by decide) (by decide)
